import Mathlib

/-!
Verification development for the PBD cloth simulator in
`node_addon/physics/PBD_stretch_bend_gpu.py`.

The simulator state (Taichi fields `x`, `p`, `v`, `w`, `link`, `link_len`,
`link_k`, `attach_pos`, `tether_len`, `coll_origin`) is embedded as plain
functions over `ℕ` with explicit element counts, and the float arithmetic of
the kernels is embedded over the real numbers.  Every definition below is
translated from the Python source; comments point to the corresponding
lines.
-/

noncomputable section

namespace PBD

/-! ## Module-level tuning constants (source lines 9-14) -/

def coll_r : ℝ := 1.01

def k_stretch : ℝ := 0.9

def k_bend : ℝ := 0.7

def k_LRA : ℝ := 0.5

def tether_give : ℝ := 0.2

def eps : ℝ := 1e-3

/-! ## 3-vectors (`ti.Vector` of three `f32` components) -/

@[ext]
structure Vec3 where
  x : ℝ
  y : ℝ
  z : ℝ

instance : Add Vec3 := ⟨fun a b => ⟨a.x + b.x, a.y + b.y, a.z + b.z⟩⟩

instance : Sub Vec3 := ⟨fun a b => ⟨a.x - b.x, a.y - b.y, a.z - b.z⟩⟩

instance : SMul ℝ Vec3 := ⟨fun r a => ⟨r * a.x, r * a.y, r * a.z⟩⟩

/-- Componentwise division of a vector by a scalar (`vec / scalar` in Taichi). -/
def Vec3.sdiv (a : Vec3) (r : ℝ) : Vec3 := ⟨a.x / r, a.y / r, a.z / r⟩

/-- Euclidean norm, `vec.norm()` in Taichi. -/
def Vec3.norm (a : Vec3) : ℝ := Real.sqrt (a.x ^ 2 + a.y ^ 2 + a.z ^ 2)

/-- `vec.normalized()` in Taichi: componentwise division by the norm. -/
def Vec3.normalized (a : Vec3) : Vec3 := Vec3.sdiv a a.norm

/-- Gravity vector `ti.Vector([0, 0, -9.8])` (source lines 150, 204). -/
def gravity : Vec3 := ⟨0, 0, -9.8⟩

/-! ## Host-side initialization (`TiClothSimulation.__init__`, lines 19-31) -/

/-- The configuration object `sdf_phy` handed to `__init__`. -/
structure SdfPhy where
  time_step : ℝ
  substep_num : ℕ
  solver_num : ℕ
  drag_damping : ℝ
  enable_LRA : Bool

/-- The scalar simulation parameters stored on the simulation object. -/
structure Params where
  dt : ℝ
  drag_damping : ℝ
  substep_num : ℕ
  solver_num : ℕ
  enable_LRA : Bool

/-- `__init__` (lines 20-25): `dt = sdf_phy.time_step / 1000.0`, the other
scalar parameters are copied unchanged.  Note `dt` is never divided by
`substep_num`. -/
def Params.ofSdf (s : SdfPhy) : Params :=
  { dt := s.time_step / 1000
    drag_damping := s.drag_damping
    substep_num := s.substep_num
    solver_num := s.solver_num
    enable_LRA := s.enable_LRA }

/-! ## Topology and per-vertex data (fields built by `initialize`) -/

/-- The immutable per-run data: vertex count, inverse masses `w`, links
(`link`, `link_len`, `link_k`) and LRA attachments (`attach_pos`,
`tether_len`).  Taichi arrays are embedded as total functions on `ℕ`
together with their element counts. -/
structure Config where
  vertex_num : ℕ
  w : ℕ → ℝ
  link_num : ℕ
  link : ℕ → ℕ × ℕ
  link_len : ℕ → ℝ
  link_k : ℕ → ℝ
  attach_num : ℕ
  attach_pos : ℕ → Vec3
  tether_len : ℕ → ℕ → ℝ

/-- The mutable per-vertex state: the three Taichi vector fields `x`, `p`,
`v`. -/
structure State where
  x : ℕ → Vec3
  p : ℕ → Vec3
  v : ℕ → Vec3

/-- Taichi fields are zero-initialized and `initialize` (lines 120-145)
writes `x` and `w` but never `v` or `p`; so the state right after
construction has `v = 0` and `p = 0`. -/
def initState (xs : ℕ → Vec3) : State :=
  { x := xs, p := fun _ => ⟨0, 0, 0⟩, v := fun _ => ⟨0, 0, 0⟩ }

/-- Per-vertex inverse mass set by `initialize` (lines 130-133): `w = 1`,
overwritten with `1 - pin_group.weight(i)` when the vertex belongs to the
pin group. -/
def init_w (pin_weight : Option ℝ) : ℝ :=
  match pin_weight with
  | Option.none => 1
  | Option.some pw => 1 - pw

/-! ## Topology Builder (`calc_dist`, `set_edges`, `set_faces`) -/

/-- `calc_dist` (lines 84-91). -/
def calc_dist (first second : Vec3) : ℝ :=
  Real.sqrt ((second.x - first.x) ^ 2 + (second.y - first.y) ^ 2 +
    (second.z - first.z) ^ 2)

/-- A BMesh vertex as used by the builder: its `index` and its coordinate
`co`. -/
structure BVert where
  index : ℕ
  co : Vec3

/-- The link arrays and the running write cursor `link_idx` (lines 53-58). -/
structure LinkArrays where
  link : ℕ → ℕ × ℕ
  link_len : ℕ → ℝ
  link_k : ℕ → ℝ
  link_idx : ℕ

/-- One iteration of the inner `for j in ti.static(range(2))` loop of
`set_faces` (lines 97-103): write the pair `(v[0+j].index, v[1+j].index)`,
the rest length `calc_dist(v[0+j].co, v[1+j].co)` and the stiffness
`k_bend` at position `link_idx`, then increment `link_idx`. -/
def faceWrite (v : ℕ → BVert) (j : ℕ) (st : LinkArrays) : LinkArrays :=
  { link := Function.update st.link st.link_idx ((v (0 + j)).index, (v (1 + j)).index)
    link_len := Function.update st.link_len st.link_idx
      (calc_dist (v (0 + j)).co (v (1 + j)).co)
    link_k := Function.update st.link_k st.link_idx k_bend
    link_idx := st.link_idx + 1 }

/-- `set_faces` (lines 93-103): for each face `i` in order, run the two
inner-loop iterations `j = 0` and `j = 1`.  `faces i` is the vertex list
`self.bm.faces[i].verts`. -/
def set_faces (faces : ℕ → (ℕ → BVert)) (face_num : ℕ) (st : LinkArrays) : LinkArrays :=
  (List.range face_num).foldl (fun s i => faceWrite (faces i) 1 (faceWrite (faces i) 0 s)) st

/-! ## The substep kernel, stage by stage (`substep_cpu`, lines 147-199;
`substep_gpu`, lines 201-253; the bodies are line-for-line identical, the
only difference is that the GPU kernel's solver loop is
`ti.static(range(self.solver_num))`, i.e. unrolled at compile time). -/

/-- The predicted velocity of the first loop (lines 149-151):
`v += dt * (0,0,-9.8) * w; v *= exp(-dt * drag_damping)`. -/
def predictV (P : Params) (w_i : ℝ) (v_i : Vec3) : Vec3 :=
  Real.exp (-P.dt * P.drag_damping) • (v_i + (P.dt * w_i) • gravity)

/-- The predict stage (lines 149-152): for every vertex `i < vertex_num`,
update the velocity and set `p[i] = x[i] + dt * v[i]`.  The loop writes
only index `i` in each iteration, so it is this pointwise map. -/
def predict (C : Config) (P : Params) (s : State) : State :=
  { x := s.x
    v := fun i => if i < C.vertex_num then predictV P (C.w i) (s.v i) else s.v i
    p := fun i => if i < C.vertex_num then
        s.x i + P.dt • predictV P (C.w i) (s.v i)
      else s.p i }

/-- One iteration of the inner attachment loop of the tether sub-stage
(lines 157-165), acting on `p[vi]`. -/
def tetherOne (C : Config) (vi att : ℕ) (pvi : Vec3) : Vec3 :=
  if eps < C.w vi then
    let dist := (pvi - C.attach_pos att).norm
    let dist_diff := dist - C.tether_len vi att
    if tether_give < dist_diff / C.tether_len vi att then
      pvi + k_LRA • Vec3.sdiv ((-0.5 * C.w vi * dist_diff) • (pvi - C.attach_pos att)) dist
    else pvi
  else pvi

/-- The tether sub-stage (lines 155-165).  The serial loop over `vi` reads
and writes only `p[vi]` in each iteration, so it is this pointwise map;
within one vertex the attachment loop accumulates onto `p[vi]` in order. -/
def tetherStage (C : Config) (p : ℕ → Vec3) : ℕ → Vec3 :=
  fun vi =>
    if vi < C.vertex_num then
      (List.range C.attach_num).foldl (fun pc att => tetherOne C vi att pc) (p vi)
    else p vi

/-- One link correction (lines 169-185): `p_01` and `kp` are computed
before either endpoint update; the endpoint-1 update reads the possibly
already-updated `p` (relevant only for a degenerate self-link). -/
def linkCorrect (C : Config) (n l : ℕ) (p : ℕ → Vec3) : ℕ → Vec3 :=
  let p0 := (C.link l).1
  let p1 := (C.link l).2
  let p_01 := p p0 - p p1
  let kp : ℝ := 1 - (1 - C.link_k l) ^ ((1 : ℝ) / ((n : ℝ) + 1))
  let length := C.link_len l
  let q := if eps < C.w p0 then
      Function.update p p0
        (p p0 + kp • ((-0.5 * C.w p0 * (p_01.norm - length)) • p_01.normalized))
    else p
  if eps < C.w p1 then
    Function.update q p1
      (q p1 + kp • ((0.5 * C.w p1 * (p_01.norm - length)) • p_01.normalized))
  else q

/-- The link sub-stage (lines 169-185): sequential loop over all links
(links sharing a vertex accumulate in order). -/
def linkStage (C : Config) (n : ℕ) (p : ℕ → Vec3) : ℕ → Vec3 :=
  (List.range C.link_num).foldl (fun pc l => linkCorrect C n l pc) p

/-- One vertex of the sphere-collision sub-stage (lines 187-194). -/
def collideOne (C : Config) (origin : Vec3) (vi : ℕ) (pvi : Vec3) : Vec3 :=
  if eps < C.w vi then
    let dist := (pvi - origin).norm
    let dist_diff := dist - coll_r
    if dist_diff < 0 then
      pvi + (-dist_diff / dist) • (pvi - origin)
    else pvi
  else pvi

/-- The sphere-collision sub-stage (lines 187-194); the loop writes only
`p[vi]` per iteration, so it is this pointwise map. -/
def collideStage (C : Config) (origin : Vec3) (p : ℕ → Vec3) : ℕ → Vec3 :=
  fun vi => if vi < C.vertex_num then collideOne C origin vi (p vi) else p vi

/-- One solver iteration `n` (lines 154-194): tether (only when
`enable_LRA`), then links, then collision. -/
def solverIter (C : Config) (P : Params) (origin : Vec3) (n : ℕ) (p : ℕ → Vec3) : ℕ → Vec3 :=
  collideStage C origin (linkStage C n (if P.enable_LRA then tetherStage C p else p))

/-- The CPU kernel's solver loop `for n in range(self.solver_num)`
(line 154). -/
def solveAll_cpu (C : Config) (P : Params) (origin : Vec3) (p : ℕ → Vec3) : ℕ → Vec3 :=
  (List.range P.solver_num).foldl (fun pc n => solverIter C P origin n pc) p

/-- The GPU kernel's solver loop `for n in ti.static(range(self.solver_num))`
(line 208): the same iterations, unrolled at compile time into a chain of
applications. -/
def solveAll_gpu (C : Config) (P : Params) (origin : Vec3) : ℕ → (ℕ → Vec3) → (ℕ → Vec3)
  | 0, p => p
  | Nat.succ n, p => solverIter C P origin n (solveAll_gpu C P origin n p)

/-- The finalize stage (lines 196-199): `v[i] = (p[i] - x[i]) / dt` (using
the pre-substep `x`), then `x[i] = p[i]`. -/
def finalize (C : Config) (P : Params) (s1 : State) (pF : ℕ → Vec3) : State :=
  { x := fun i => if i < C.vertex_num then pF i else s1.x i
    p := pF
    v := fun i => if i < C.vertex_num then Vec3.sdiv (pF i - s1.x i) P.dt else s1.v i }

/-- `substep_cpu` (lines 147-199). -/
def substep_cpu (C : Config) (P : Params) (origin : Vec3) (s : State) : State :=
  finalize C P (predict C P s) (solveAll_cpu C P origin (predict C P s).p)

/-- `substep_gpu` (lines 201-253): identical to `substep_cpu` except for the
statically unrolled solver loop. -/
def substep_gpu (C : Config) (P : Params) (origin : Vec3) (s : State) : State :=
  finalize C P (predict C P s) (solveAll_gpu C P origin P.solver_num (predict C P s).p)

/-! ## Per-frame driver (`animate`, lines 255-271) -/

/-- The inner substep loop of one frame (lines 265-271): for each of the
`substep_num` substeps, refresh the collider origin from the external
object (modelled by the stream `coll : step ↦ position`), then run one
substep with the device-selected kernel (line 256). -/
def step_frame (C : Config) (P : Params) (coll : ℕ → Vec3) (device_cpu : Bool) (s : State) : State :=
  (List.range P.substep_num).foldl
    (fun sc step => (if device_cpu then substep_cpu else substep_gpu) C P (coll step) sc) s

/-- `animate` (lines 255-271): for each frame, first yield
`mesh_update(me, x)` — publishing the current `x` — and only then run the
frame's substeps.  Returns the list of published position arrays and the
final state.  `colls frame step` is the collider position read before
substep `step` of frame `frame`. -/
def animate (C : Config) (P : Params) (device_cpu : Bool) (colls : ℕ → ℕ → Vec3)
    (frame_num : ℕ) (s : State) : List (ℕ → Vec3) × State :=
  (List.range frame_num).foldl
    (fun (acc : List (ℕ → Vec3) × State) frame =>
      (acc.1 ++ [acc.2.x], step_frame C P (colls frame) device_cpu acc.2))
    ([], s)

/-! ## Concrete instances used to evaluate the definitions -/

/-- A one-vertex configuration with `w = 1`, no links, no attachments. -/
def Cw1 : Config :=
  { vertex_num := 1, w := fun _ => 1, link_num := 0, link := fun _ => (0, 0)
    link_len := fun _ => 0, link_k := fun _ => 0, attach_num := 0
    attach_pos := fun _ => ⟨0, 0, 0⟩, tether_len := fun _ _ => 1 }

/-- As `Cw1` but with `w = 1/2`. -/
def Chalf : Config :=
  { vertex_num := 1, w := fun _ => 1 / 2, link_num := 0, link := fun _ => (0, 0)
    link_len := fun _ => 0, link_k := fun _ => 0, attach_num := 0
    attach_pos := fun _ => ⟨0, 0, 0⟩, tether_len := fun _ _ => 1 }

/-- As `Cw1` but with `w = 1e-3` (equal to `eps`). -/
def Ceps : Config :=
  { vertex_num := 1, w := fun _ => 1e-3, link_num := 0, link := fun _ => (0, 0)
    link_len := fun _ => 0, link_k := fun _ => 0, attach_num := 0
    attach_pos := fun _ => ⟨0, 0, 0⟩, tether_len := fun _ _ => 1 }

/-- A one-vertex configuration with the vertex fully pinned (`w = 0`). -/
def Cpin : Config :=
  { vertex_num := 1, w := fun _ => 0, link_num := 0, link := fun _ => (0, 0)
    link_len := fun _ => 0, link_k := fun _ => 0, attach_num := 0
    attach_pos := fun _ => ⟨0, 0, 0⟩, tether_len := fun _ _ => 1 }

/-- A two-vertex configuration with one stretch link `(0, 1)` of rest length
`1` and stiffness `k_stretch`, with `w 0 = 1` and `w 1 = 1/2`. -/
def CL : Config :=
  { vertex_num := 2
    w := fun i => if i = 0 then 1 else 1 / 2
    link_num := 1, link := fun _ => (0, 1), link_len := fun _ => 1
    link_k := fun _ => k_stretch, attach_num := 0
    attach_pos := fun _ => ⟨0, 0, 0⟩, tether_len := fun _ _ => 1 }

/-- Predicted positions for the two vertices of `CL`: vertex 0 at the
origin, vertex 1 at `(2, 0, 0)`. -/
def pL : ℕ → Vec3 := fun i => if i = 0 then ⟨0, 0, 0⟩ else ⟨2, 0, 0⟩

/-- Concrete parameters: `time_step` 1000 ms (`dt = 1`), no damping, one
substep, zero solver iterations, LRA off. -/
def P0 : Params :=
  { dt := 1, drag_damping := 0, substep_num := 1, solver_num := 0, enable_LRA := false }

/-- All vertices at the origin. -/
def x0 : ℕ → Vec3 := fun _ => ⟨0, 0, 0⟩

/-- All vertices at `(1, 2, 3)`. -/
def xs123 : ℕ → Vec3 := fun _ => ⟨1, 2, 3⟩

/-- A constant collider stream at the origin. -/
def colls0 : ℕ → ℕ → Vec3 := fun _ _ => ⟨0, 0, 0⟩

/-- One triangular face whose vertices have mesh indices 5, 6, 7 and
coordinates `(0,0,0)`, `(1,0,0)`, `(1,1,0)`. -/
def face1 : ℕ → ℕ → BVert := fun _ j =>
  if j = 0 then ⟨5, ⟨0, 0, 0⟩⟩ else if j = 1 then ⟨6, ⟨1, 0, 0⟩⟩ else ⟨7, ⟨1, 1, 0⟩⟩

/-- Empty link arrays with the write cursor at 0. -/
def st0 : LinkArrays :=
  { link := fun _ => (0, 0), link_len := fun _ => 0, link_k := fun _ => 0, link_idx := 0 }

/-! ## Vec3 component lemmas -/

@[simp]
theorem Vec3.add_x (a b : Vec3) : (a + b).x = a.x + b.x := rfl

@[simp]
theorem Vec3.add_y (a b : Vec3) : (a + b).y = a.y + b.y := rfl

@[simp]
theorem Vec3.add_z (a b : Vec3) : (a + b).z = a.z + b.z := rfl

@[simp]
theorem Vec3.sub_x (a b : Vec3) : (a - b).x = a.x - b.x := rfl

@[simp]
theorem Vec3.sub_y (a b : Vec3) : (a - b).y = a.y - b.y := rfl

@[simp]
theorem Vec3.sub_z (a b : Vec3) : (a - b).z = a.z - b.z := rfl

@[simp]
theorem Vec3.smul_x (r : ℝ) (a : Vec3) : (r • a).x = r * a.x := rfl

@[simp]
theorem Vec3.smul_y (r : ℝ) (a : Vec3) : (r • a).y = r * a.y := rfl

@[simp]
theorem Vec3.smul_z (r : ℝ) (a : Vec3) : (r • a).z = r * a.z := rfl

@[simp]
theorem Vec3.sdiv_x (a : Vec3) (r : ℝ) : (a.sdiv r).x = a.x / r := rfl

@[simp]
theorem Vec3.sdiv_y (a : Vec3) (r : ℝ) : (a.sdiv r).y = a.y / r := rfl

@[simp]
theorem Vec3.sdiv_z (a : Vec3) (r : ℝ) : (a.sdiv r).z = a.z / r := rfl

@[simp]
theorem Vec3.mk_x (a b c : ℝ) : (Vec3.mk a b c).x = a := rfl

@[simp]
theorem Vec3.mk_y (a b c : ℝ) : (Vec3.mk a b c).y = b := rfl

@[simp]
theorem Vec3.mk_z (a b c : ℝ) : (Vec3.mk a b c).z = c := rfl

theorem Vec3.smul_zero_vec (r : ℝ) : r • (⟨0, 0, 0⟩ : Vec3) = ⟨0, 0, 0⟩ := by
  ext <;> simp

theorem Vec3.zero_smul_vec (a : Vec3) : (0 : ℝ) • a = ⟨0, 0, 0⟩ := by
  ext <;> simp

theorem Vec3.add_zero_vec (a : Vec3) : a + ⟨0, 0, 0⟩ = a := by
  ext <;> simp

theorem Vec3.sub_self_vec (a : Vec3) : a - a = ⟨0, 0, 0⟩ := by
  ext <;> simp

theorem Vec3.sdiv_zero_vec (r : ℝ) : Vec3.sdiv ⟨0, 0, 0⟩ r = ⟨0, 0, 0⟩ := by
  ext <;> simp

theorem Vec3.add_sub_cancel_left_vec (a b : Vec3) : a + b - a = b := by
  ext <;> simp

theorem Vec3.norm_smul (r : ℝ) (a : Vec3) : (r • a).norm = |r| * a.norm := by
  unfold Vec3.norm
  have h : (r • a).x ^ 2 + (r • a).y ^ 2 + (r • a).z ^ 2
      = r ^ 2 * (a.x ^ 2 + a.y ^ 2 + a.z ^ 2) := by
    simp
    ring
  rw [h, Real.sqrt_mul (sq_nonneg r), Real.sqrt_sq_eq_abs]

theorem Vec3.norm_nonneg (a : Vec3) : 0 ≤ a.norm := Real.sqrt_nonneg _

theorem Vec3.norm_mk_x (a : ℝ) : (Vec3.mk a 0 0).norm = |a| := by
  unfold Vec3.norm
  simp [Real.sqrt_sq_eq_abs]

theorem Vec3.norm_zero_vec : (Vec3.mk 0 0 0).norm = 0 := by
  simp [Vec3.norm_mk_x]

/-! ## Generic fold helpers -/

theorem foldl_fix {α β : Type} (f : α → β → α) (a : α) (h : ∀ b, f a b = a) :
    ∀ l : List β, l.foldl f a = a := by
  intro l
  induction l with
  | nil => rfl
  | cons c t ih => rw [List.foldl_cons, h c, ih]

theorem foldl_preserve {α β : Type} (Q : α → Prop) (f : α → β → α)
    (hf : ∀ x b, Q x → Q (f x b)) :
    ∀ (l : List β) (a : α), Q a → Q (l.foldl f a) := by
  intro l
  induction l with
  | nil => intro a ha; exact ha
  | cons c t ih =>
      intro a ha
      rw [List.foldl_cons]
      exact ih _ (hf a c ha)

/-! ## Low-inverse-mass vertices are skipped by every correction sub-stage -/

theorem eps_pos : (0 : ℝ) < eps := by norm_num [eps]

theorem tetherOne_low (C : Config) (vi att : ℕ) (pvi : Vec3) (h : C.w vi ≤ eps) :
    tetherOne C vi att pvi = pvi := by
  simp [tetherOne, not_lt.mpr h]

theorem tetherStage_low (C : Config) (p : ℕ → Vec3) (vi : ℕ) (h : C.w vi ≤ eps) :
    tetherStage C p vi = p vi := by
  unfold tetherStage
  by_cases hvi : vi < C.vertex_num
  · simp only [hvi, if_true]
    exact foldl_fix _ _ (fun att => tetherOne_low C vi att (p vi) h) _
  · simp [hvi]

theorem linkCorrect_low (C : Config) (n l : ℕ) (p : ℕ → Vec3) (vi : ℕ)
    (h : C.w vi ≤ eps) : linkCorrect C n l p vi = p vi := by
  have hv : ¬ eps < C.w vi := not_lt.mpr h
  by_cases h0 : eps < C.w (C.link l).1
  · have ne0 : vi ≠ (C.link l).1 := by rintro rfl; exact hv h0
    by_cases h1 : eps < C.w (C.link l).2
    · have ne1 : vi ≠ (C.link l).2 := by rintro rfl; exact hv h1
      simp [linkCorrect, h0, h1, Function.update_noteq ne0, Function.update_noteq ne1]
    · simp [linkCorrect, h0, h1, Function.update_noteq ne0]
  · by_cases h1 : eps < C.w (C.link l).2
    · have ne1 : vi ≠ (C.link l).2 := by rintro rfl; exact hv h1
      simp [linkCorrect, h0, h1, Function.update_noteq ne1]
    · simp [linkCorrect, h0, h1]

theorem linkStage_low (C : Config) (n : ℕ) (p : ℕ → Vec3) (vi : ℕ)
    (h : C.w vi ≤ eps) : linkStage C n p vi = p vi := by
  unfold linkStage
  exact foldl_preserve (fun pc => pc vi = p vi)
    (fun pc l => linkCorrect C n l pc)
    (fun pc l hpc => by
      show linkCorrect C n l pc vi = p vi
      rw [linkCorrect_low C n l pc vi h]
      exact hpc)
    (List.range C.link_num) p rfl

theorem collideOne_low (C : Config) (origin : Vec3) (vi : ℕ) (pvi : Vec3)
    (h : C.w vi ≤ eps) : collideOne C origin vi pvi = pvi := by
  simp [collideOne, not_lt.mpr h]

theorem collideStage_low (C : Config) (origin : Vec3) (p : ℕ → Vec3) (vi : ℕ)
    (h : C.w vi ≤ eps) : collideStage C origin p vi = p vi := by
  unfold collideStage
  by_cases hvi : vi < C.vertex_num
  · simp only [hvi, if_true]
    exact collideOne_low C origin vi (p vi) h
  · simp [hvi]

theorem solverIter_low (C : Config) (P : Params) (origin : Vec3) (n : ℕ)
    (p : ℕ → Vec3) (vi : ℕ) (h : C.w vi ≤ eps) :
    solverIter C P origin n p vi = p vi := by
  unfold solverIter
  rw [collideStage_low _ _ _ _ h, linkStage_low _ _ _ _ h]
  by_cases hl : P.enable_LRA
  · simp only [hl, if_true]
    exact tetherStage_low C p vi h
  · simp [hl]

theorem solveAll_cpu_low (C : Config) (P : Params) (origin : Vec3)
    (p : ℕ → Vec3) (vi : ℕ) (h : C.w vi ≤ eps) :
    solveAll_cpu C P origin p vi = p vi := by
  unfold solveAll_cpu
  exact foldl_preserve (fun pc => pc vi = p vi)
    (fun pc n => solverIter C P origin n pc)
    (fun pc n hpc => by
      show solverIter C P origin n pc vi = p vi
      rw [solverIter_low C P origin n pc vi h]
      exact hpc)
    (List.range P.solver_num) p rfl

/-! ## CPU/GPU kernel equivalence (helper) -/

theorem solveAll_eq (C : Config) (P : Params) (origin : Vec3) :
    ∀ (m : ℕ) (p : ℕ → Vec3),
      (List.range m).foldl (fun pc n => solverIter C P origin n pc) p
        = solveAll_gpu C P origin m p := by
  intro m
  induction m with
  | zero => intro p; rfl
  | succ k ih =>
      intro p
      rw [List.range_succ, List.foldl_append, List.foldl_cons, List.foldl_nil, ih]
      rfl

theorem substep_cpu_eq_gpu (C : Config) (P : Params) (origin : Vec3) (s : State) :
    substep_cpu C P origin s = substep_gpu C P origin s := by
  unfold substep_cpu substep_gpu solveAll_cpu
  rw [solveAll_eq]

/-! ## The pinned-vertex invariant through a substep -/

theorem predictV_zero (P : Params) : predictV P 0 ⟨0, 0, 0⟩ = ⟨0, 0, 0⟩ := by
  unfold predictV gravity
  ext <;> simp

theorem substep_cpu_pinned (C : Config) (P : Params) (origin : Vec3) (s : State)
    (vi : ℕ) (hw : C.w vi = 0) (hv : s.v vi = ⟨0, 0, 0⟩) :
    (substep_cpu C P origin s).x vi = s.x vi
      ∧ (substep_cpu C P origin s).v vi = ⟨0, 0, 0⟩ := by
  have hle : C.w vi ≤ eps := by rw [hw]; exact le_of_lt eps_pos
  have hpF : solveAll_cpu C P origin (predict C P s).p vi = (predict C P s).p vi :=
    solveAll_cpu_low C P origin _ vi hle
  by_cases hvi : vi < C.vertex_num
  · have hp1 : (predict C P s).p vi = s.x vi := by
      simp only [predict, hvi, if_true, hw, hv, predictV_zero,
        Vec3.smul_zero_vec, Vec3.add_zero_vec]
    constructor
    · show (if vi < C.vertex_num then _ else _) = s.x vi
      rw [if_pos hvi, hpF, hp1]
    · show (if vi < C.vertex_num then _ else _) = (⟨0, 0, 0⟩ : Vec3)
      rw [if_pos hvi, hpF, hp1]
      show Vec3.sdiv (s.x vi - (predict C P s).x vi) P.dt = _
      show Vec3.sdiv (s.x vi - s.x vi) P.dt = _
      rw [Vec3.sub_self_vec, Vec3.sdiv_zero_vec]
  · constructor
    · show (if vi < C.vertex_num then _ else _) = s.x vi
      rw [if_neg hvi]
      rfl
    · show (if vi < C.vertex_num then _ else _) = (⟨0, 0, 0⟩ : Vec3)
      rw [if_neg hvi]
      show (predict C P s).v vi = _
      simp only [predict, hvi, if_false]
      exact hv

theorem substep_dev_pinned (dev : Bool) (C : Config) (P : Params) (origin : Vec3)
    (s : State) (vi : ℕ) (hw : C.w vi = 0) (hv : s.v vi = ⟨0, 0, 0⟩) :
    ((if dev then substep_cpu else substep_gpu) C P origin s).x vi = s.x vi
      ∧ ((if dev then substep_cpu else substep_gpu) C P origin s).v vi = ⟨0, 0, 0⟩ := by
  cases dev
  · simp only [Bool.false_eq_true, if_false]
    rw [← substep_cpu_eq_gpu]
    exact substep_cpu_pinned C P origin s vi hw hv
  · simp only [if_true]
    exact substep_cpu_pinned C P origin s vi hw hv

theorem step_frame_pinned (C : Config) (P : Params) (coll : ℕ → Vec3) (dev : Bool)
    (s : State) (vi : ℕ) (hw : C.w vi = 0) (hv : s.v vi = ⟨0, 0, 0⟩) :
    (step_frame C P coll dev s).x vi = s.x vi
      ∧ (step_frame C P coll dev s).v vi = ⟨0, 0, 0⟩ := by
  unfold step_frame
  exact foldl_preserve (fun sc => sc.x vi = s.x vi ∧ sc.v vi = ⟨0, 0, 0⟩)
    (fun sc step => (if dev then substep_cpu else substep_gpu) C P (coll step) sc)
    (fun sc step hsc => by
      obtain ⟨hx, hvv⟩ := hsc
      obtain ⟨hx2, hv2⟩ := substep_dev_pinned dev C P (coll step) sc vi hw hvv
      exact ⟨hx2.trans hx, hv2⟩)
    (List.range P.substep_num) s ⟨rfl, hv⟩

/-! ## Frame-driver lemmas -/

theorem animate_succ (C : Config) (P : Params) (dev : Bool) (colls : ℕ → ℕ → Vec3)
    (n : ℕ) (s : State) :
    animate C P dev colls (n + 1) s
      = ((animate C P dev colls n s).1 ++ [(animate C P dev colls n s).2.x],
         step_frame C P (colls n) dev (animate C P dev colls n s).2) := by
  unfold animate
  rw [List.range_succ, List.foldl_append, List.foldl_cons, List.foldl_nil]

theorem animate_length (C : Config) (P : Params) (dev : Bool) (colls : ℕ → ℕ → Vec3)
    (s : State) : ∀ n : ℕ, (animate C P dev colls n s).1.length = n := by
  intro n
  induction n with
  | zero => rfl
  | succ k ih => rw [animate_succ, List.length_append, ih]; rfl

/-- Claim C2: a fully pinned vertex (`w = 0`) keeps its initial position
through every frame, starting from the zero-velocity state produced by
`initialize`. -/
theorem pinned_vertex_never_moves (C : Config) (P : Params) (dev : Bool)
    (colls : ℕ → ℕ → Vec3) (frames : ℕ) (xs : ℕ → Vec3) (vi : ℕ)
    (hw : C.w vi = 0) :
    ((animate C P dev colls frames (initState xs)).2).x vi = xs vi := by
  have h := foldl_preserve
    (fun acc : List (ℕ → Vec3) × State => acc.2.x vi = xs vi ∧ acc.2.v vi = ⟨0, 0, 0⟩)
    (fun acc frame => (acc.1 ++ [acc.2.x], step_frame C P (colls frame) dev acc.2))
    (fun acc frame hacc => by
      obtain ⟨hx, hv⟩ := hacc
      obtain ⟨hx2, hv2⟩ := step_frame_pinned C P (colls frame) dev acc.2 vi hw hv
      exact ⟨hx2.trans hx, hv2⟩)
    (List.range frames) ([], initState xs) ⟨rfl, rfl⟩
  exact h.1

theorem pinned_vertex_never_moves_witness :
    Cpin.w 0 = 0
      ∧ ((animate Cpin P0 true colls0 3 (initState xs123)).2).x 0 = xs123 0 :=
  ⟨rfl, pinned_vertex_never_moves Cpin P0 true colls0 3 xs123 0 rfl⟩

/-- Claim C10: a vertex with `0 < w ≤ eps` is skipped by every correction
sub-stage in every solver iteration, so after the whole substep its
predicted position — and hence its committed position — is exactly
`x + dt * v` with `v` the gravity-and-damping-updated velocity; no
constraint or collision response ever applies to it. -/
theorem light_vertex_drifts (C : Config) (P : Params) (origin : Vec3) (s : State)
    (vi : ℕ) (h1 : 0 < C.w vi) (h2 : C.w vi ≤ eps) (hvi : vi < C.vertex_num) :
    (substep_cpu C P origin s).p vi
        = s.x vi + P.dt • predictV P (C.w vi) (s.v vi)
      ∧ (substep_cpu C P origin s).x vi
        = s.x vi + P.dt • predictV P (C.w vi) (s.v vi) := by
  have hpF : solveAll_cpu C P origin (predict C P s).p vi = (predict C P s).p vi :=
    solveAll_cpu_low C P origin _ vi h2
  have hp1 : (predict C P s).p vi = s.x vi + P.dt • predictV P (C.w vi) (s.v vi) := by
    simp only [predict, hvi, if_true]
  constructor
  · show solveAll_cpu C P origin (predict C P s).p vi = _
    rw [hpF, hp1]
  · show (if vi < C.vertex_num then _ else _) = _
    rw [if_pos hvi, hpF, hp1]

theorem light_vertex_drifts_witness :
    0 < Ceps.w 0 ∧ Ceps.w 0 ≤ eps ∧ 0 < Ceps.vertex_num
      ∧ (substep_cpu Ceps P0 ⟨0, 0, 0⟩ (initState x0)).p 0
          = (initState x0).x 0 + P0.dt • predictV P0 (Ceps.w 0) ((initState x0).v 0)
      ∧ (substep_cpu Ceps P0 ⟨0, 0, 0⟩ (initState x0)).x 0
          = (initState x0).x 0 + P0.dt • predictV P0 (Ceps.w 0) ((initState x0).v 0) := by
  have h1 : 0 < Ceps.w 0 := by norm_num [Ceps]
  have h2 : Ceps.w 0 ≤ eps := by norm_num [Ceps, eps]
  have h3 : 0 < Ceps.vertex_num := by norm_num [Ceps]
  obtain ⟨ha, hb⟩ := light_vertex_drifts Ceps P0 ⟨0, 0, 0⟩ (initState x0) 0 h1 h2 h3
  exact ⟨h1, h2, h3, ha, hb⟩

/-- Claim C8: the CPU and GPU substep kernels compute the same state
transformation; the only textual difference between them is the statically
unrolled solver loop, which computes the same iteration chain. -/
theorem kernels_equivalent (C : Config) (P : Params) (origin : Vec3) (s : State) :
    substep_cpu C P origin s = substep_gpu C P origin s :=
  substep_cpu_eq_gpu C P origin s

/-- Amended claim C9: the frame driver publishes `x` at the start of each
frame, before that frame's substeps run; the array published for frame `f`
is the state reached after the previous `f` frames.  Each substep's
collider position is the one read immediately before that substep (the
stream `colls frame step`). -/
theorem publishes_previous_frame (C : Config) (P : Params) (dev : Bool)
    (colls : ℕ → ℕ → Vec3) (s : State) :
    ∀ (n f : ℕ), f < n →
      ((animate C P dev colls n s).1)[f]?
        = some ((animate C P dev colls f s).2).x := by
  intro n
  induction n with
  | zero => intro f hf; exact absurd hf (Nat.not_lt_zero f)
  | succ k ih =>
      intro f hf
      rw [animate_succ]
      rcases Nat.lt_succ_iff_lt_or_eq.mp hf with h | h
      · show ((animate C P dev colls k s).1 ++ _)[f]? = _
        rw [List.getElem?_append_left (by rw [animate_length]; exact h)]
        exact ih f h
      · subst h
        show ((animate C P dev colls f s).1 ++ [(animate C P dev colls f s).2.x])[f]? = _
        set L := (animate C P dev colls f s).1 with hL
        set A2 := (animate C P dev colls f s).2.x with hA
        have hlen : L.length = f := animate_length C P dev colls s f
        rw [← hlen, List.getElem?_concat_length]

theorem publishes_previous_frame_witness :
    0 < 1
      ∧ ((animate Cw1 P0 true colls0 1 (initState x0)).1)[0]?
        = some ((animate Cw1 P0 true colls0 0 (initState x0)).2).x :=
  ⟨Nat.zero_lt_one, publishes_previous_frame Cw1 P0 true colls0 (initState x0) 1 0 Nat.zero_lt_one⟩

/-! ## A concrete free-fall substep (used to separate published and
post-substep positions) -/

theorem substep_free_fall_z :
    ((substep_cpu Cw1 P0 ⟨0, 0, 0⟩ (initState x0)).x 0).z = -9.8 := by
  simp only [substep_cpu, finalize, solveAll_cpu, P0, Cw1, List.range_zero,
    List.foldl_nil, predict, predictV, initState, x0, gravity, Nat.zero_lt_one,
    if_true]
  norm_num [Real.exp_zero]

theorem step_frame_once :
    step_frame Cw1 P0 (colls0 0) true (initState x0)
      = substep_cpu Cw1 P0 ⟨0, 0, 0⟩ (initState x0) := by
  unfold step_frame
  have hr : List.range P0.substep_num = [0] := rfl
  rw [hr, List.foldl_cons, List.foldl_nil]
  rfl

/-- Counterexample to claim C9 as stated: in a one-frame run the published
array is the initial `x`, not the `x` obtained after the frame's substeps
(which has fallen under gravity). -/
theorem publication_not_after_substeps :
    ¬ ((animate Cw1 P0 true colls0 1 (initState x0)).1
        = [((animate Cw1 P0 true colls0 1 (initState x0)).2).x]) := by
  intro h
  have hsucc := animate_succ Cw1 P0 true colls0 0 (initState x0)
  norm_num at hsucc
  rw [show animate Cw1 P0 true colls0 0 (initState x0) = ([], initState x0) from rfl] at hsucc
  simp only [List.nil_append] at hsucc
  have h1 : (animate Cw1 P0 true colls0 1 (initState x0)).1 = [(initState x0).x] := by
    rw [hsucc]
  have h2 : (animate Cw1 P0 true colls0 1 (initState x0)).2
      = step_frame Cw1 P0 (colls0 0) true (initState x0) := by
    rw [hsucc]
  rw [h1, h2, step_frame_once] at h
  have hx : (initState x0).x = (substep_cpu Cw1 P0 ⟨0, 0, 0⟩ (initState x0)).x := by
    simpa using h
  have hz := congrArg (fun f => (f 0).z) hx
  simp only [substep_free_fall_z] at hz
  norm_num [initState, x0] at hz

/-! ## Collision sub-stage geometry -/

theorem coll_r_pos : (0 : ℝ) < coll_r := by norm_num [coll_r]

theorem push_out_vec (a o : Vec3) (c : ℝ) :
    (a + c • (a - o)) - o = (1 + c) • (a - o) := by
  ext <;> simp <;> ring

/-- Amended claim C4: for every vertex with `w > eps` whose predicted
position is at positive distance from the collider center, the collision
sub-stage leaves it at distance at least `coll_r` from the center, and a
penetrating vertex (distance `< coll_r`) is placed exactly on the sphere
surface.  (At distance exactly 0 the push direction is undefined and the
claim fails; see the counterexample.) -/
theorem collision_containment (C : Config) (origin : Vec3) (vi : ℕ) (pvi : Vec3)
    (hw : eps < C.w vi) (hd : 0 < (pvi - origin).norm) :
    coll_r ≤ (collideOne C origin vi pvi - origin).norm
      ∧ ((pvi - origin).norm < coll_r →
          (collideOne C origin vi pvi - origin).norm = coll_r) := by
  have hd0 : (pvi - origin).norm ≠ 0 := ne_of_gt hd
  by_cases hlt : (pvi - origin).norm - coll_r < 0
  · have heval : collideOne C origin vi pvi
        = pvi + (-((pvi - origin).norm - coll_r) / (pvi - origin).norm) • (pvi - origin) := by
      simp only [collideOne, hw, if_true, hlt]
    have hcoef : 1 + -((pvi - origin).norm - coll_r) / (pvi - origin).norm
        = coll_r / (pvi - origin).norm := by
      field_simp
    have hnorm : (collideOne C origin vi pvi - origin).norm = coll_r := by
      rw [heval, push_out_vec, hcoef, Vec3.norm_smul,
        abs_of_pos (div_pos coll_r_pos hd), div_mul_cancel₀ _ hd0]
    exact ⟨le_of_eq hnorm.symm, fun _ => hnorm⟩
  · have heval : collideOne C origin vi pvi = pvi := by
      simp only [collideOne, hw, if_true, hlt, if_false]
    rw [heval]
    have hge : coll_r ≤ (pvi - origin).norm := by linarith [not_lt.mp hlt]
    exact ⟨hge, fun hc => absurd hc (not_lt.mpr hge)⟩

theorem collision_containment_witness :
    eps < Cw1.w 0 ∧ 0 < ((⟨1/2, 0, 0⟩ : Vec3) - ⟨0, 0, 0⟩).norm
      ∧ coll_r ≤ (collideOne Cw1 ⟨0, 0, 0⟩ 0 ⟨1/2, 0, 0⟩ - ⟨0, 0, 0⟩).norm
      ∧ (((⟨1/2, 0, 0⟩ : Vec3) - ⟨0, 0, 0⟩).norm < coll_r →
          (collideOne Cw1 ⟨0, 0, 0⟩ 0 ⟨1/2, 0, 0⟩ - ⟨0, 0, 0⟩).norm = coll_r) := by
  have hw : eps < Cw1.w 0 := by norm_num [Cw1, eps]
  have hsub : ((⟨1/2, 0, 0⟩ : Vec3) - ⟨0, 0, 0⟩) = ⟨1/2, 0, 0⟩ := by ext <;> simp
  have hd : 0 < ((⟨1/2, 0, 0⟩ : Vec3) - ⟨0, 0, 0⟩).norm := by
    rw [hsub, Vec3.norm_mk_x]; norm_num
  obtain ⟨ha, hb⟩ := collision_containment Cw1 ⟨0, 0, 0⟩ 0 ⟨1/2, 0, 0⟩ hw hd
  exact ⟨hw, hd, ha, hb⟩

/-- Counterexample to claim C4 as stated: a vertex with `w > eps` located
exactly at the collider center is left there by the collision sub-stage
(the push scales the zero vector), so its distance to the center after the
sub-stage is `0`, not `≥ coll_r` minus a small tolerance. -/
theorem collision_containment_center_cex :
    collideOne Cw1 ⟨0, 0, 0⟩ 0 ⟨0, 0, 0⟩ = ⟨0, 0, 0⟩
      ∧ (collideOne Cw1 ⟨0, 0, 0⟩ 0 ⟨0, 0, 0⟩ - ⟨0, 0, 0⟩).norm = 0
      ∧ eps < Cw1.w 0 ∧ (0 : ℝ) < coll_r := by
  have hw : eps < Cw1.w 0 := by norm_num [Cw1, eps]
  have hsub : ((⟨0, 0, 0⟩ : Vec3) - ⟨0, 0, 0⟩) = ⟨0, 0, 0⟩ := Vec3.sub_self_vec _
  have h1 : collideOne Cw1 ⟨0, 0, 0⟩ 0 ⟨0, 0, 0⟩ = ⟨0, 0, 0⟩ := by
    simp only [collideOne, hw, if_true, hsub, Vec3.norm_zero_vec]
    have hlt : (0 : ℝ) - coll_r < 0 := by norm_num [coll_r]
    rw [if_pos hlt, Vec3.smul_zero_vec, Vec3.add_zero_vec]
  refine ⟨h1, ?_, hw, coll_r_pos⟩
  rw [h1, hsub, Vec3.norm_zero_vec]

/-! ## Gating versus scaling of the correction sub-stages -/

/-- Amended claim C6: the tether and link corrections are scaled by the
corrected vertex's `w`; the collision correction is not scaled by `w` but
merely gated by `w > eps`; all three sub-stages leave any vertex with
`w ≤ eps` — in particular a pinned vertex (`w = 0`) — unmoved. -/
theorem corrections_leave_low_w_unmoved (C : Config) (origin : Vec3)
    (n : ℕ) (p : ℕ → Vec3) (vi : ℕ) (h : C.w vi ≤ eps) :
    tetherStage C p vi = p vi ∧ linkStage C n p vi = p vi
      ∧ collideStage C origin p vi = p vi :=
  ⟨tetherStage_low C p vi h, linkStage_low C n p vi h,
    collideStage_low C origin p vi h⟩

theorem corrections_leave_low_w_unmoved_witness :
    Cpin.w 0 ≤ eps
      ∧ (tetherStage Cpin x0 0 = x0 0 ∧ linkStage Cpin 0 x0 0 = x0 0
          ∧ collideStage Cpin ⟨0, 0, 0⟩ x0 0 = x0 0) := by
  have h : Cpin.w 0 ≤ eps := by norm_num [Cpin, eps]
  exact ⟨h, corrections_leave_low_w_unmoved Cpin ⟨0, 0, 0⟩ 0 x0 0 h⟩

/-- Counterexample to claim C6 as stated: the sphere-collision correction
is not scaled by `w` — two vertices with different inverse masses (1 and
1/2), both above `eps`, receive the identical full-depth push. -/
theorem collision_correction_not_w_scaled :
    collideOne Cw1 ⟨0, 0, 0⟩ 0 ⟨1/2, 0, 0⟩ = ⟨101/100, 0, 0⟩
      ∧ collideOne Chalf ⟨0, 0, 0⟩ 0 ⟨1/2, 0, 0⟩ = ⟨101/100, 0, 0⟩
      ∧ Chalf.w 0 ≠ Cw1.w 0 := by
  have hsub : ((⟨1/2, 0, 0⟩ : Vec3) - ⟨0, 0, 0⟩) = ⟨1/2, 0, 0⟩ := by ext <;> simp
  have hnorm : ((⟨1/2, 0, 0⟩ : Vec3) - ⟨0, 0, 0⟩).norm = 1/2 := by
    rw [hsub, Vec3.norm_mk_x]; norm_num
  have hlt : (1 : ℝ)/2 - coll_r < 0 := by norm_num [coll_r]
  refine ⟨?_, ?_, ?_⟩
  · have hw : eps < Cw1.w 0 := by norm_num [Cw1, eps]
    simp only [collideOne, hw, if_true, hnorm]
    rw [if_pos hlt, hsub]
    ext <;> simp [coll_r] <;> norm_num
  · have hw : eps < Chalf.w 0 := by norm_num [Chalf, eps]
    simp only [collideOne, hw, if_true, hnorm]
    rw [if_pos hlt, hsub]
    ext <;> simp [coll_r] <;> norm_num
  · norm_num [Cw1, Chalf]

/-! ## Link-correction displacements -/

theorem linkCorrect_apply (C : Config) (n l : ℕ) (p : ℕ → Vec3)
    (hij : (C.link l).1 ≠ (C.link l).2)
    (h0 : eps < C.w (C.link l).1) (h1 : eps < C.w (C.link l).2) :
    linkCorrect C n l p (C.link l).1
        = p (C.link l).1 + (1 - (1 - C.link_k l) ^ ((1 : ℝ) / ((n : ℝ) + 1))) •
            ((-0.5 * C.w (C.link l).1 *
                ((p (C.link l).1 - p (C.link l).2).norm - C.link_len l)) •
              (p (C.link l).1 - p (C.link l).2).normalized)
      ∧ linkCorrect C n l p (C.link l).2
        = p (C.link l).2 + (1 - (1 - C.link_k l) ^ ((1 : ℝ) / ((n : ℝ) + 1))) •
            ((0.5 * C.w (C.link l).2 *
                ((p (C.link l).1 - p (C.link l).2).norm - C.link_len l)) •
              (p (C.link l).1 - p (C.link l).2).normalized) := by
  simp only [linkCorrect, h0, h1, if_true]
  constructor
  · rw [Function.update_noteq hij _ _, Function.update_same]
  · rw [Function.update_same, Function.update_noteq (Ne.symm hij) _ _]

/-- Amended claim C3: for a link correction whose endpoints are distinct
and both have `w > eps`, the applied displacement magnitudes are
proportional to the endpoints' inverse masses:
`w1 * disp0 = w0 * disp1` (equivalently `disp0 / w0 = disp1 / w1`, i.e.
the momenta `m0 * disp0` and `m1 * disp1` agree). -/
theorem link_correction_mass_weighted (C : Config) (n l : ℕ) (p : ℕ → Vec3)
    (hij : (C.link l).1 ≠ (C.link l).2)
    (h0 : eps < C.w (C.link l).1) (h1 : eps < C.w (C.link l).2) :
    C.w (C.link l).2 * (linkCorrect C n l p (C.link l).1 - p (C.link l).1).norm
      = C.w (C.link l).1 * (linkCorrect C n l p (C.link l).2 - p (C.link l).2).norm := by
  obtain ⟨hi, hj⟩ := linkCorrect_apply C n l p hij h0 h1
  rw [hi, hj, Vec3.add_sub_cancel_left_vec, Vec3.add_sub_cancel_left_vec,
    Vec3.norm_smul, Vec3.norm_smul, Vec3.norm_smul, Vec3.norm_smul]
  have hwi : 0 < C.w (C.link l).1 := lt_trans eps_pos h0
  have hwj : 0 < C.w (C.link l).2 := lt_trans eps_pos h1
  rw [abs_mul, abs_mul, abs_mul, abs_mul, abs_of_pos hwi, abs_of_pos hwj]
  have ha : |(-0.5 : ℝ)| = 0.5 := by norm_num
  have hb : |(0.5 : ℝ)| = 0.5 := by norm_num
  rw [ha, hb]
  ring

theorem link_correction_mass_weighted_witness :
    (CL.link 0).1 ≠ (CL.link 0).2
      ∧ eps < CL.w (CL.link 0).1 ∧ eps < CL.w (CL.link 0).2
      ∧ CL.w (CL.link 0).2 * (linkCorrect CL 0 0 pL (CL.link 0).1 - pL (CL.link 0).1).norm
        = CL.w (CL.link 0).1 * (linkCorrect CL 0 0 pL (CL.link 0).2 - pL (CL.link 0).2).norm := by
  have hij : (CL.link 0).1 ≠ (CL.link 0).2 := by norm_num [CL]
  have h0 : eps < CL.w (CL.link 0).1 := by norm_num [CL, eps]
  have h1 : eps < CL.w (CL.link 0).2 := by norm_num [CL, eps]
  exact ⟨hij, h0, h1, link_correction_mass_weighted CL 0 0 pL hij h0 h1⟩

/-- Counterexample to claim C3 as stated: for the link `(0, 1)` with
`w0 = 1`, `w1 = 1/2`, rest length 1 and current length 2, the applied
displacement magnitudes are `0.45` and `0.225`, so
`w0 * disp0 = 0.45 ≠ 0.1125 = w1 * disp1`. -/
theorem link_correction_w_disp_cex :
    ¬ (CL.w 0 * (linkCorrect CL 0 0 pL 0 - pL 0).norm
        = CL.w 1 * (linkCorrect CL 0 0 pL 1 - pL 1).norm) := by
  have hij : (CL.link 0).1 ≠ (CL.link 0).2 := by norm_num [CL]
  have h0 : eps < CL.w (CL.link 0).1 := by norm_num [CL, eps]
  have h1 : eps < CL.w (CL.link 0).2 := by norm_num [CL, eps]
  obtain ⟨hi, hj⟩ := linkCorrect_apply CL 0 0 pL hij h0 h1
  simp only [show CL.link 0 = (0, 1) from rfl] at hi hj
  have hp01 : pL 0 - pL 1 = ⟨-2, 0, 0⟩ := by
    ext <;> simp [pL]
  have hnorm : (pL 0 - pL 1).norm = 2 := by
    rw [hp01, Vec3.norm_mk_x]; norm_num
  have hnd : (pL 0 - pL 1).normalized = ⟨-1, 0, 0⟩ := by
    unfold Vec3.normalized
    rw [hnorm, hp01]
    ext <;> simp <;> norm_num
  have hkp : (1 : ℝ) - (1 - CL.link_k 0) ^ ((1 : ℝ) / (((0 : ℕ) : ℝ) + 1)) = 0.9 := by
    have he : ((1 : ℝ) / (((0 : ℕ) : ℝ) + 1)) = 1 := by norm_num
    rw [he, Real.rpow_one]
    norm_num [CL, k_stretch]
  intro hEq
  rw [hi, hj, hkp, hnorm, hnd, Vec3.add_sub_cancel_left_vec,
    Vec3.add_sub_cancel_left_vec, Vec3.norm_smul, Vec3.norm_smul,
    Vec3.norm_smul, Vec3.norm_smul, Vec3.norm_mk_x] at hEq
  norm_num [CL] at hEq
  have e1 : |(9/10 : ℝ)| = 9/10 := abs_of_pos (by norm_num)
  have e2 : |(1/2 : ℝ)| = 1/2 := abs_of_pos (by norm_num)
  have e3 : |(1/4 : ℝ)| = 1/4 := abs_of_pos (by norm_num)
  rw [e1, e2, e3] at hEq
  norm_num at hEq

/-! ## Topology Builder: the face pass -/

theorem faceWrite_idx (v : ℕ → BVert) (j : ℕ) (st : LinkArrays) :
    (faceWrite v j st).link_idx = st.link_idx + 1 := rfl

theorem faceWrite_preserves (v : ℕ → BVert) (j : ℕ) (st : LinkArrays) (q : ℕ)
    (hq : q < st.link_idx) :
    (faceWrite v j st).link q = st.link q
      ∧ (faceWrite v j st).link_len q = st.link_len q
      ∧ (faceWrite v j st).link_k q = st.link_k q := by
  have hne : q ≠ st.link_idx := ne_of_lt hq
  exact ⟨Function.update_noteq hne _ _, Function.update_noteq hne _ _,
    Function.update_noteq hne _ _⟩

theorem set_faces_succ (faces : ℕ → (ℕ → BVert)) (k : ℕ) (st : LinkArrays) :
    set_faces faces (k + 1) st
      = faceWrite (faces k) 1 (faceWrite (faces k) 0 (set_faces faces k st)) := by
  unfold set_faces
  rw [List.range_succ, List.foldl_append, List.foldl_cons, List.foldl_nil]

theorem set_faces_idx (faces : ℕ → (ℕ → BVert)) (st : LinkArrays) :
    ∀ m : ℕ, (set_faces faces m st).link_idx = st.link_idx + 2 * m := by
  intro m
  induction m with
  | zero => rfl
  | succ k ih =>
      rw [set_faces_succ, faceWrite_idx, faceWrite_idx, ih]
      omega

/-- Claim C5: for every face `i`, the face pass appends exactly two bending
links: positions `base + 2i` and `base + 2i + 1` of the link arrays hold
the vertex pairs `(verts[0], verts[1])` and `(verts[1], verts[2])`, each
with stiffness `k_bend` and rest length the current distance between the
linked vertices; over `face_num` faces the cursor advances by exactly
`2 * face_num`. -/
theorem set_faces_appends_two_bend_links (faces : ℕ → (ℕ → BVert))
    (face_num : ℕ) (st : LinkArrays) (i : ℕ) (hi : i < face_num) :
    (set_faces faces face_num st).link_idx = st.link_idx + 2 * face_num
      ∧ (set_faces faces face_num st).link (st.link_idx + 2 * i)
          = ((faces i 0).index, (faces i 1).index)
      ∧ (set_faces faces face_num st).link_len (st.link_idx + 2 * i)
          = calc_dist (faces i 0).co (faces i 1).co
      ∧ (set_faces faces face_num st).link_k (st.link_idx + 2 * i) = k_bend
      ∧ (set_faces faces face_num st).link (st.link_idx + 2 * i + 1)
          = ((faces i 1).index, (faces i 2).index)
      ∧ (set_faces faces face_num st).link_len (st.link_idx + 2 * i + 1)
          = calc_dist (faces i 1).co (faces i 2).co
      ∧ (set_faces faces face_num st).link_k (st.link_idx + 2 * i + 1) = k_bend := by
  induction face_num with
  | zero => exact absurd hi (Nat.not_lt_zero i)
  | succ k ih =>
      have hidxK : (set_faces faces k st).link_idx = st.link_idx + 2 * k :=
        set_faces_idx faces st k
      have hidxA : (faceWrite (faces k) 0 (set_faces faces k st)).link_idx
          = st.link_idx + 2 * k + 1 := by
        rw [faceWrite_idx, hidxK]
      rcases Nat.lt_succ_iff_lt_or_eq.mp hi with hik | hik
      · obtain ⟨-, h2, h3, h4, h5, h6, h7⟩ := ih hik
        have hq0A : st.link_idx + 2 * i < (set_faces faces k st).link_idx := by omega
        have hq1A : st.link_idx + 2 * i + 1 < (set_faces faces k st).link_idx := by omega
        have hq0B : st.link_idx + 2 * i
            < (faceWrite (faces k) 0 (set_faces faces k st)).link_idx := by omega
        have hq1B : st.link_idx + 2 * i + 1
            < (faceWrite (faces k) 0 (set_faces faces k st)).link_idx := by omega
        obtain ⟨a1, a2, a3⟩ := faceWrite_preserves (faces k) 0 (set_faces faces k st) _ hq0A
        obtain ⟨a4, a5, a6⟩ := faceWrite_preserves (faces k) 0 (set_faces faces k st) _ hq1A
        obtain ⟨b1, b2, b3⟩ :=
          faceWrite_preserves (faces k) 1 (faceWrite (faces k) 0 (set_faces faces k st)) _ hq0B
        obtain ⟨b4, b5, b6⟩ :=
          faceWrite_preserves (faces k) 1 (faceWrite (faces k) 0 (set_faces faces k st)) _ hq1B
        refine ⟨set_faces_idx faces st (k + 1), ?_, ?_, ?_, ?_, ?_, ?_⟩ <;>
          rw [set_faces_succ]
        · rw [b1, a1]; exact h2
        · rw [b2, a2]; exact h3
        · rw [b3, a3]; exact h4
        · rw [b4, a4]; exact h5
        · rw [b5, a5]; exact h6
        · rw [b6, a6]; exact h7
      · subst hik
        have hq0B : st.link_idx + 2 * i
            < (faceWrite (faces i) 0 (set_faces faces i st)).link_idx := by omega
        obtain ⟨b1, b2, b3⟩ :=
          faceWrite_preserves (faces i) 1 (faceWrite (faces i) 0 (set_faces faces i st)) _ hq0B
        refine ⟨set_faces_idx faces st (i + 1), ?_, ?_, ?_, ?_, ?_, ?_⟩ <;>
          rw [set_faces_succ]
        · rw [b1]
          show Function.update (set_faces faces i st).link (set_faces faces i st).link_idx
            ((faces i (0 + 0)).index, (faces i (1 + 0)).index) (st.link_idx + 2 * i) = _
          rw [← hidxK] at *
          rw [Function.update_same]
        · rw [b2]
          show Function.update (set_faces faces i st).link_len (set_faces faces i st).link_idx
            (calc_dist (faces i (0 + 0)).co (faces i (1 + 0)).co) (st.link_idx + 2 * i) = _
          rw [← hidxK] at *
          rw [Function.update_same]
        · rw [b3]
          show Function.update (set_faces faces i st).link_k (set_faces faces i st).link_idx
            k_bend (st.link_idx + 2 * i) = _
          rw [← hidxK] at *
          rw [Function.update_same]
        · show Function.update (faceWrite (faces i) 0 (set_faces faces i st)).link
            (faceWrite (faces i) 0 (set_faces faces i st)).link_idx
            ((faces i (0 + 1)).index, (faces i (1 + 1)).index) (st.link_idx + 2 * i + 1) = _
          rw [← hidxA] at *
          rw [Function.update_same]
        · show Function.update (faceWrite (faces i) 0 (set_faces faces i st)).link_len
            (faceWrite (faces i) 0 (set_faces faces i st)).link_idx
            (calc_dist (faces i (0 + 1)).co (faces i (1 + 1)).co) (st.link_idx + 2 * i + 1) = _
          rw [← hidxA] at *
          rw [Function.update_same]
        · show Function.update (faceWrite (faces i) 0 (set_faces faces i st)).link_k
            (faceWrite (faces i) 0 (set_faces faces i st)).link_idx
            k_bend (st.link_idx + 2 * i + 1) = _
          rw [← hidxA] at *
          rw [Function.update_same]

theorem set_faces_appends_two_bend_links_witness :
    0 < 1
      ∧ (set_faces face1 1 st0).link_idx = st0.link_idx + 2 * 1
      ∧ (set_faces face1 1 st0).link (st0.link_idx + 2 * 0)
          = ((face1 0 0).index, (face1 0 1).index)
      ∧ (set_faces face1 1 st0).link_len (st0.link_idx + 2 * 0)
          = calc_dist (face1 0 0).co (face1 0 1).co
      ∧ (set_faces face1 1 st0).link_k (st0.link_idx + 2 * 0) = k_bend
      ∧ (set_faces face1 1 st0).link (st0.link_idx + 2 * 0 + 1)
          = ((face1 0 1).index, (face1 0 2).index)
      ∧ (set_faces face1 1 st0).link_len (st0.link_idx + 2 * 0 + 1)
          = calc_dist (face1 0 1).co (face1 0 2).co
      ∧ (set_faces face1 1 st0).link_k (st0.link_idx + 2 * 0 + 1) = k_bend := by
  obtain ⟨h1, h2, h3, h4, h5, h6, h7⟩ :=
    set_faces_appends_two_bend_links face1 1 st0 0 Nat.zero_lt_one
  exact ⟨Nat.zero_lt_one, h1, h2, h3, h4, h5, h6, h7⟩

/-! ## The substep time increment -/

/-- Amended claim C1: initialization sets the substep increment to
`dt = time_step / 1000`, independent of the substep count; taking the
frame time step to be `time_step / 1000`, the relation
`dt = frame_dt / substep_count` fails whenever `time_step ≠ 0` and more
than one substep is configured. -/
theorem dt_is_time_step_over_1000 (ts d : ℝ) (n sv : ℕ) (lra : Bool) :
    (Params.ofSdf ⟨ts, n, sv, d, lra⟩).dt = ts / 1000
      ∧ (ts ≠ 0 → 1 < n →
          (Params.ofSdf ⟨ts, n, sv, d, lra⟩).dt ≠ ts / 1000 / (n : ℝ)) := by
  refine ⟨rfl, ?_⟩
  intro hts hn hEq
  rw [show (Params.ofSdf ⟨ts, n, sv, d, lra⟩).dt = ts / 1000 from rfl] at hEq
  have hngt : (1 : ℝ) < (n : ℝ) := by exact_mod_cast hn
  have hn0 : ((n : ℝ)) ≠ 0 := ne_of_gt (lt_trans zero_lt_one hngt)
  have ha : ts / 1000 ≠ 0 := div_ne_zero hts (by norm_num)
  rw [eq_div_iff hn0] at hEq
  have h2 : ts / 1000 * (n : ℝ) = ts / 1000 * 1 := by rw [mul_one]; exact hEq
  have h3 : ((n : ℝ)) = 1 := mul_left_cancel₀ ha h2
  linarith

theorem dt_is_time_step_over_1000_witness :
    (Params.ofSdf ⟨1000, 2, 0, 0, false⟩).dt = 1000 / 1000
      ∧ (Params.ofSdf ⟨1000, 2, 0, 0, false⟩).dt ≠ 1000 / 1000 / ((2 : ℕ) : ℝ) :=
  ⟨(dt_is_time_step_over_1000 1000 0 2 0 false).1,
    (dt_is_time_step_over_1000 1000 0 2 0 false).2 (by norm_num) (by norm_num)⟩

/-- Counterexample to claim C1 as stated: with `time_step = 1000` ms (frame
time step 1 s) and 2 substeps, the configured `dt` is `1`, not `1/2`. -/
theorem dt_not_frame_dt_over_substeps_cex :
    ¬ ((Params.ofSdf ⟨1000, 2, 0, 0, false⟩).dt = 1000 / 1000 / (2 : ℝ)) := by
  show ¬ ((1000 : ℝ) / 1000 = 1000 / 1000 / 2)
  norm_num

end PBD
